import Mathlib

/-!
Shallow embedding of the disk-backed expiry cache of `crooks/satinv`
(`src/cacher/cacher.go`).

Modelling conventions:
* Machine time: the Go code calls `time.Now().Unix()` inside `HasExpired` and
  `ResetExpire`; the embedding passes the current epoch second `now : Int`
  explicitly.
* Filesystem: a content file is modelled by `FileState` — it is absent,
  present with some byte content, or present but unreadable (`os.Stat`
  succeeds, `os.ReadFile` fails).  The whole filesystem is a function
  `String → FileState` from paths.
* Go error values are modelled by the inductive `GoErr`, which tracks error
  identity: `fmt.Errorf("...: %v", err)` constructs a *new* error value whose
  message embeds the old one; this is `GoErr.errorf pre inner`.
* JSON: the cached payloads are opaque byte strings.  `gjson.ParseBytes` has
  type `[]byte → Result` — it is total and never reports a parse error; for
  the expiry table this is captured by `ExpiryFileState.corrupt`, whose
  `Get("urls").Map()` / `Get("files").Map()` projections are empty maps.
* Go maps are modelled as association lists with replace-on-insert
  (`insertKV`) and first-match lookup (`lookup`); map iteration visits each
  key exactly once, in the order of the list.
-/

set_option autoImplicit false

namespace Satinv

/-- Go error values arising in `cacher.go`, tracked by identity. -/
inductive GoErr where
  /-- `errAPIInit = errors.New("API is not initialised")` (cacher.go:24). -/
  | errAPIInit
  /-- `errNoItem = errors.New("requested item not in content cache")` (cacher.go:25). -/
  | errNoItem
  /-- `os.ErrNotExist` as returned by `os.ReadFile` on a missing file. -/
  | errNotExist
  /-- some other I/O error with the given message. -/
  | ioError (msg : String)
  /-- an error value returned by the external fetcher (`satapi.GetJSON`). -/
  | fetchErr (msg : String)
  /-- `fmt.Errorf("<pre>: %v", inner)`: a fresh error whose message prefixes
  `pre` onto the message of `inner`. -/
  | errorf (pre : String) (inner : GoErr)
  /-- `errors.New(msg)` at a call site. -/
  | newErr (msg : String)
deriving DecidableEq, Repr

/-- `Item` (cacher.go:29-34).  Defaults are Go zero values. -/
structure Item where
  url      : Bool   := false
  expiry   : Int    := 0
  file     : String := ""
  validity : Int    := 0
deriving DecidableEq, Repr

/-- State of one file on disk. -/
inductive FileState where
  | absent
  /-- the file exists but reading it fails with the given message. -/
  | unreadable (msg : String)
  | present (content : String)
deriving DecidableEq, Repr

/-- The filesystem of content files: path → file state. -/
def Fs : Type := String → FileState

/-- `os.Stat(p)` succeeds / `os.IsNotExist` is false. -/
def fileExists (fs : Fs) (p : String) : Bool :=
  match fs p with
  | .absent => false
  | _ => true

/-- `os.ReadFile(p)` (used by `jsonFromFile`, `GetFile`). -/
def readFile (fs : Fs) (p : String) : Except GoErr String :=
  match fs p with
  | .absent => .error .errNotExist
  | .unreadable msg => .error (.ioError msg)
  | .present s => .ok s

/-- First-match lookup in an association list (a Go map read `m[k]`). -/
def lookup {α : Type} : List (String × α) → String → Option α
  | [], _ => none
  | (k', v) :: rest, k => if k' = k then some v else lookup rest k

/-- Replace-on-insert in an association list (a Go map write `m[k] = v`). -/
def insertKV {α : Type} : List (String × α) → String → α → List (String × α)
  | [], k, v => [(k, v)]
  | (k', v') :: rest, k, v =>
      if k' = k then (k, v) :: rest else (k', v') :: insertKV rest k v

/-- The keys of an association list. -/
def keys {α : Type} (l : List (String × α)) : List String :=
  l.map Prod.fst

/-- `Cache` (cacher.go:36-43).  The `api` client itself is external; only the
`apiInit` flag is state. -/
structure Cache where
  apiInit      : Bool := false
  cacheDir     : String := ""
  content      : List (String × Item) := []
  cacheRefresh : Bool := false
  writeExpiry  : Bool := false
deriving Repr

/-- `path.Join(dir, name)` for a nonempty dir and a clean relative name. -/
def pathJoin (dir name : String) : String :=
  if dir = "" then name else dir ++ "/" ++ name

/-- `Cache.getItem` (cacher.go:68-74). -/
def getItem (c : Cache) (itemKey : String) : Except GoErr Item :=
  match lookup c.content itemKey with
  | none => .error .errNoItem
  | some item => .ok item

/-- `Cache.HasExpired` (cacher.go:98-120): the expiry policy `isExpired`. -/
def hasExpired (c : Cache) (fs : Fs) (now : Int) (itemKey : String) :
    Except GoErr Bool :=
  match getItem c itemKey with
  | .error e => .error e
  | .ok item =>
    if c.cacheRefresh then
      -- Instructed to force a refresh
      .ok true
    else if fileExists fs item.file = false then
      -- File associated with the URL doesn't exist
      .ok true
    else if now > item.expiry then
      -- The Cache entry has expired
      .ok true
    else
      .ok false

/-- `Cache.addItem` (cacher.go:122-132): used only by `importExpiry`. -/
def addItem (content : List (String × Item)) (itemKey : String)
    (expireEpoch : Int) (isURL : Bool) : List (String × Item) :=
  let item := (lookup content itemKey).getD {}
  insertKV content itemKey { item with expiry := expireEpoch, url := isURL }

/-- `Cache.ResetExpire` (cacher.go:135-145): the spec's `refreshExpiry`.
Go returns only `err`; the updated cache is the threaded state. -/
def resetExpire (c : Cache) (now : Int) (itemKey : String) :
    Option GoErr × Cache :=
  match getItem c itemKey with
  | .error e => (some e, c)
  | .ok item =>
    let item' := { item with expiry := now + item.validity }
    (none, { c with content := insertKV c.content itemKey item',
                    writeExpiry := true })

/-- `Cache.AddURL` (cacher.go:149-159): register a Remote item. -/
def addURL (c : Cache) (itemKey fileName : String) (validity : Int) : Cache :=
  let found := lookup c.content itemKey
  let item := found.getD {}
  let item := { item with url := true, validity := validity,
                          file := pathJoin c.cacheDir fileName }
  let item := if found.isSome then item else { item with expiry := 0 }
  { c with content := insertKV c.content itemKey item }

/-- `Cache.AddFile` (cacher.go:162-171): register a Local item. -/
def addFile (c : Cache) (itemKey fileName : String) (validity : Int) : Cache :=
  let found := lookup c.content itemKey
  let item := found.getD {}
  let item := { item with url := false, validity := validity,
                          file := pathJoin c.cacheDir fileName }
  let item := if found.isSome then item else { item with expiry := 0 }
  { c with content := insertKV c.content itemKey item }

/-- The persisted expiry table: the `"urls"` and `"files"` JSON maps of
`expire.json` (the `write_time` field is write-only metadata). -/
structure ExpiryTable where
  urls  : List (String × Int)
  files : List (String × Int)
deriving DecidableEq, Repr

/-- State of the `expire.json` file when `importExpiry` reads it.
`corrupt` is a file that `os.ReadFile` reads fine but whose bytes are not a
JSON object carrying `urls`/`files` integer maps: `gjson.ParseBytes` is total
(its Go type returns no error), and `Get("urls").Map()` on such a result is
the empty map. -/
inductive ExpiryFileState where
  | absent
  | unreadable (msg : String)
  | corrupt (raw : String)
  | table (t : ExpiryTable)
deriving Repr

/-- Outcome of `importExpiry`: either the populated content map, or process
termination via `log.Fatalf` (cacher.go:181). -/
inductive ImportOutcome where
  | proceed (content : List (String × Item))
  | fatal (msg : String)
deriving Repr

/-- The 7-day retention horizon of `importExpiry` (cacher.go:188). -/
def ageLimitOf (now : Int) : Int :=
  now - (7 * 24 * 60 * 60)

/-- One iteration of an `importExpiry` loop (cacher.go:189-202): keep the
entry only when its expiry is strictly younger than the age limit. -/
def importStep (ageLimit : Int) (isURL : Bool)
    (acc : List (String × Item)) (kv : String × Int) : List (String × Item) :=
  if kv.2 > ageLimit then addItem acc kv.1 kv.2 isURL else acc

/-- The two population loops of `importExpiry` (cacher.go:185-202), run over
an already-read table. -/
def importTable (t : ExpiryTable) (now : Int)
    (content : List (String × Item)) : List (String × Item) :=
  let ageLimit := ageLimitOf now
  t.files.foldl (importStep ageLimit false)
    (t.urls.foldl (importStep ageLimit true) content)

/-- `Cache.importExpiry` (cacher.go:174-203), over the state of the
`expire.json` file.  A missing file is an empty cache; any other read error
is `log.Fatalf`; a readable file always parses (gjson is total), a corrupt
one to empty `urls`/`files` maps. -/
def importExpiry (efs : ExpiryFileState) (now : Int)
    (content : List (String × Item)) : ImportOutcome :=
  match efs with
  | .absent => .proceed content
  | .unreadable msg => .fatal msg
  | .corrupt _ => .proceed (importTable ⟨[], []⟩ now content)
  | .table t => .proceed (importTable t now content)

/-- The expiry maps built by `Cache.WriteExpiryFile` (cacher.go:215-229):
URL-kind entries to the `urls` map, the rest to the `files` map, each with
its expiry epoch. -/
def exportTable (content : List (String × Item)) : ExpiryTable where
  urls  := (content.filter (fun kv => kv.2.url)).map (fun kv => (kv.1, kv.2.expiry))
  files := (content.filter (fun kv => !kv.2.url)).map (fun kv => (kv.1, kv.2.expiry))

/-- `Cache.WriteExpiryFile` (cacher.go:206-244): the spec's `exportExpiry`.
Gated on the dirty flag; on write, replaces `expire.json` with the exported
table and clears the flag. -/
def writeExpiryFile (c : Cache) (efs : ExpiryFileState) :
    ExpiryFileState × Cache :=
  if c.writeExpiry = false then (efs, c)
  else (.table (exportTable c.content), { c with writeExpiry := false })

/-- The external fetcher (`satapi.AuthClient.GetJSON`): key → raw bytes or an
error message. -/
def Fetcher : Type := String → Except String String

/-- `Cache.getURLFromAPI` (cacher.go:247-272).  Returns the Go results
`(gj, err)` as an `Except`, threading the cache and filesystem state.
`jsonToFile` (marshal + `os.WriteFile`) is modelled as a write that
succeeds, fully replacing the target file. -/
def getURLFromAPI (fetcher : Fetcher) (c : Cache) (fs : Fs) (now : Int)
    (itemKey : String) : Except GoErr String × Cache × Fs :=
  if c.apiInit = false then
    (.error .errAPIInit, c, fs)
  else
    match fetcher itemKey with
    | .error e =>
      (.error (.errorf ("unable to parse " ++ itemKey) (.fetchErr e)), c, fs)
    | .ok bytes =>
      -- gjson.ParseBytes: total, payload kept as raw bytes
      let gj := bytes
      match lookup c.content itemKey with
      | none =>
        (.error (.newErr ("item " ++ itemKey ++ " not in cache content")), c, fs)
      | some item =>
        let fs' : Fs := fun p => if p = item.file then .present gj else fs p
        -- We have successfully retreived a URL so update its cache expiry time.
        let c' := (resetExpire c now itemKey).2
        (.ok gj, c', fs')

/-- `Cache.GetURL` (cacher.go:276-302): the spec's `getRemote`. -/
def getURL (fetcher : Fetcher) (c : Cache) (fs : Fs) (now : Int)
    (itemKey : String) : Except GoErr String × Cache × Fs :=
  match getItem c itemKey with
  | .error e => (.error e, c, fs)
  | .ok item =>
    if item.url = false then
      -- This function is exclusively for URLs
      (.error (.newErr "requested URL is a file"), c, fs)
    else
      match hasExpired c fs now itemKey with
      | .error e => (.error e, c, fs)
      | .ok refresh =>
        if refresh then
          getURLFromAPI fetcher c fs now itemKey
        else
          -- Try and get the requested json from the Cache File
          match readFile fs item.file with
          | .ok gj => (.ok gj, c, fs)
          | .error _ =>
            -- Failed to read the Cache File, get it from the API instead
            getURLFromAPI fetcher c fs now itemKey

/-- `Cache.GetFile` (cacher.go:305-319): the spec's `getLocal`. -/
def getFile (c : Cache) (fs : Fs) (itemKey : String) : Except GoErr String :=
  match getItem c itemKey with
  | .error e => .error e
  | .ok item =>
    if item.url then .error (.newErr "requested file is a URL")
    else readFile fs item.file

/-! ### Association-list lemmas -/

theorem lookup_insertKV_self {α : Type} (m : List (String × α)) (k : String)
    (v : α) : lookup (insertKV m k v) k = some v := by
  induction m with
  | nil => simp [insertKV, lookup]
  | cons hd tl ih =>
    obtain ⟨k', v'⟩ := hd
    by_cases h : k' = k
    · simp [insertKV, h, lookup]
    · simp [insertKV, h, lookup, ih]

theorem lookup_insertKV_ne {α : Type} (m : List (String × α)) (k k' : String)
    (v : α) (h : k' ≠ k) : lookup (insertKV m k v) k' = lookup m k' := by
  induction m with
  | nil => simp [insertKV, lookup, Ne.symm h]
  | cons hd tl ih =>
    obtain ⟨k₀, v₀⟩ := hd
    by_cases hk : k₀ = k
    · subst hk
      simp [insertKV, lookup, Ne.symm h]
    · by_cases hk' : k₀ = k'
      · subst hk'
        simp [insertKV, hk, lookup]
      · simp [insertKV, hk, lookup, hk', ih]

theorem lookup_addItem_ne (m : List (String × Item)) (k k' : String) (e : Int)
    (u : Bool) (h : k' ≠ k) : lookup (addItem m k e u) k' = lookup m k' := by
  simp [addItem, lookup_insertKV_ne _ _ _ _ h]

/-- In an association list whose keys are distinct, membership determines
lookup. -/
theorem lookup_eq_of_mem_nodup {α : Type} (l : List (String × α)) (k : String)
    (v : α) (hmem : (k, v) ∈ l) (hnd : (keys l).Nodup) :
    lookup l k = some v := by
  induction l with
  | nil => simp at hmem
  | cons hd tl ih =>
    obtain ⟨k₀, v₀⟩ := hd
    simp only [keys, List.map_cons, List.nodup_cons] at hnd
    rcases List.mem_cons.mp hmem with heq | htl
    · injection heq with hk hv
      simp [lookup, hk.symm, hv]
    · have hk0 : k₀ ≠ k := by
        intro hk
        subst hk
        exact hnd.1 (List.mem_map_of_mem Prod.fst htl)
      simp only [keys] at ih
      simp [lookup, hk0, ih htl hnd.2]

/-- A fold of `importStep` over entries none of which carry a given key
leaves the lookup of that key unchanged. -/
theorem lookup_foldl_importStep_not_mem (l : List (String × Int)) (a : Int)
    (u : Bool) (m : List (String × Item)) (k : String)
    (h : k ∉ keys l) :
    lookup (l.foldl (importStep a u) m) k = lookup m k := by
  induction l generalizing m with
  | nil => rfl
  | cons hd tl ih =>
    simp only [keys, List.map_cons, List.mem_cons, not_or] at h
    have step : lookup (importStep a u m hd) k = lookup m k := by
      unfold importStep
      split
      · exact lookup_addItem_ne _ _ _ _ _ h.1
      · rfl
    have htl : k ∉ keys tl := by simpa [keys] using h.2
    rw [List.foldl_cons, ih (importStep a u m hd) htl, step]

/-- A fold of `importStep` over distinct-keyed entries containing `(k, e)`
sets `k`'s binding to the imported item when `e` is within the horizon, and
leaves it as it was otherwise. -/
theorem lookup_foldl_importStep_mem (l : List (String × Int)) (a : Int)
    (u : Bool) (m : List (String × Item)) (k : String) (e : Int)
    (hmem : (k, e) ∈ l) (hnd : (keys l).Nodup) :
    lookup (l.foldl (importStep a u) m) k =
      if e > a then
        some { (lookup m k).getD {} with expiry := e, url := u }
      else lookup m k := by
  induction l generalizing m with
  | nil => simp at hmem
  | cons hd tl ih =>
    obtain ⟨k₀, e₀⟩ := hd
    simp only [keys, List.map_cons, List.nodup_cons] at hnd
    rcases List.mem_cons.mp hmem with heq | htl
    · injection heq with hk he
      subst hk; subst he
      have hnot : k ∉ keys tl := by
        intro hm
        exact hnd.1 (by simpa [keys] using hm)
      rw [List.foldl_cons, lookup_foldl_importStep_not_mem _ _ _ _ _ hnot]
      unfold importStep addItem
      split
      · simp [lookup_insertKV_self]
      · rfl
    · have hk0 : k₀ ≠ k := by
        intro hk
        subst hk
        exact hnd.1 (List.mem_map_of_mem Prod.fst htl)
      have step : lookup (importStep a u m (k₀, e₀)) k = lookup m k := by
        unfold importStep
        split
        · exact lookup_addItem_ne _ _ _ _ _ (Ne.symm hk0)
        · rfl
      have hnd2 : (keys tl).Nodup := by simpa [keys] using hnd.2
      rw [List.foldl_cons, ih _ htl hnd2, step]

theorem mem_of_lookup_eq_some {α : Type} (l : List (String × α)) (k : String)
    (v : α) (h : lookup l k = some v) : (k, v) ∈ l := by
  induction l with
  | nil => simp [lookup] at h
  | cons hd tl ih =>
    obtain ⟨k₀, v₀⟩ := hd
    by_cases hk : k₀ = k
    · subst hk
      have hv : v₀ = v := by simpa [lookup] using h
      exact hv ▸ List.mem_cons_self _ _
    · simp only [lookup, if_neg hk] at h
      exact List.mem_cons_of_mem _ (ih h)

/-- Projecting expiries keeps the key list. -/
theorem keys_map_expiry (l : List (String × Item)) :
    keys (l.map (fun kv => (kv.1, kv.2.expiry))) = keys l := by
  simp [keys, Function.comp]

theorem keys_exportTable_urls_nodup (content : List (String × Item))
    (hnd : (keys content).Nodup) : (keys (exportTable content).urls).Nodup := by
  rw [exportTable, keys_map_expiry]
  simp only [keys]
  exact List.Nodup.sublist ((List.filter_sublist content).map Prod.fst) hnd

theorem keys_exportTable_files_nodup (content : List (String × Item))
    (hnd : (keys content).Nodup) : (keys (exportTable content).files).Nodup := by
  rw [exportTable, keys_map_expiry]
  simp only [keys]
  exact List.Nodup.sublist ((List.filter_sublist content).map Prod.fst) hnd

theorem mem_exportTable_urls (content : List (String × Item)) (k : String)
    (i : Item) (hmem : (k, i) ∈ content) (hu : i.url = true) :
    (k, i.expiry) ∈ (exportTable content).urls := by
  rw [exportTable]
  exact List.mem_map_of_mem _ (List.mem_filter_of_mem hmem (by simp [hu]))

theorem mem_exportTable_files (content : List (String × Item)) (k : String)
    (i : Item) (hmem : (k, i) ∈ content) (hu : i.url = false) :
    (k, i.expiry) ∈ (exportTable content).files := by
  rw [exportTable]
  exact List.mem_map_of_mem _ (List.mem_filter_of_mem hmem (by simp [hu]))

theorem not_mem_exportTable_files (content : List (String × Item)) (k : String)
    (i : Item) (hl : lookup content k = some i) (hu : i.url = true)
    (hnd : (keys content).Nodup) : k ∉ keys (exportTable content).files := by
  intro hk
  rw [exportTable, keys_map_expiry] at hk
  obtain ⟨⟨k', j⟩, hmem, hfst⟩ := List.mem_map.mp hk
  obtain ⟨hin, hj⟩ := List.mem_filter.mp hmem
  simp only at hfst
  subst hfst
  have := lookup_eq_of_mem_nodup _ _ _ hin hnd
  rw [hl] at this
  injection this with hij
  rw [← hij] at hj
  simp [hu] at hj

theorem not_mem_exportTable_urls (content : List (String × Item)) (k : String)
    (i : Item) (hl : lookup content k = some i) (hu : i.url = false)
    (hnd : (keys content).Nodup) : k ∉ keys (exportTable content).urls := by
  intro hk
  rw [exportTable, keys_map_expiry] at hk
  obtain ⟨⟨k', j⟩, hmem, hfst⟩ := List.mem_map.mp hk
  obtain ⟨hin, hj⟩ := List.mem_filter.mp hmem
  simp only at hfst
  subst hfst
  have := lookup_eq_of_mem_nodup _ _ _ hin hnd
  rw [hl] at this
  injection this with hij
  rw [← hij] at hj
  simp [hu] at hj

/-- The exact value computed by `hasExpired` on a registered key. -/
theorem hasExpired_eq (c : Cache) (fs : Fs) (now : Int) (k : String)
    (item : Item) (h : lookup c.content k = some item) :
    hasExpired c fs now k =
      .ok (if c.cacheRefresh then true
           else if fileExists fs item.file = false then true
           else decide (now > item.expiry)) := by
  simp only [hasExpired, getItem, h]
  by_cases hr : c.cacheRefresh
  · simp [hr]
  · by_cases hf : fileExists fs item.file
    · by_cases ht : now > item.expiry <;> simp [hr, hf, ht]
    · simp [hr, hf]

/-! ### Claim theorems -/

/-- C1: for every registered item and current time, `HasExpired` is decided
in strict priority order — force-refresh flag, then backing-file existence,
then `now > expiry` — so a missing backing file or a forced refresh yields
expired even when the stored expiry has not elapsed. -/
theorem hasExpired_priority_order (c : Cache) (fs : Fs) (now : Int)
    (k : String) (item : Item) (h : lookup c.content k = some item) :
    hasExpired c fs now k =
      .ok (if c.cacheRefresh then true
           else if fileExists fs item.file = false then true
           else decide (now > item.expiry)) ∧
    ((c.cacheRefresh = true ∨ fileExists fs item.file = false) →
      hasExpired c fs now k = .ok true) := by
  refine ⟨hasExpired_eq c fs now k item h, ?_⟩
  rintro (hr | hf) <;> rw [hasExpired_eq c fs now k item h]
  · simp [hr]
  · by_cases hr : c.cacheRefresh <;> simp [hr, hf]

theorem hasExpired_priority_order_witness :
    lookup (Cache.mk false "d" [("k", ⟨true, 100, "d/f", 5⟩)] false false).content
      "k" = some ⟨true, 100, "d/f", 5⟩ ∧
    hasExpired (Cache.mk false "d" [("k", ⟨true, 100, "d/f", 5⟩)] false false)
      (fun _ => .absent) 42 "k" = .ok true :=
  ⟨rfl, (hasExpired_priority_order
      (Cache.mk false "d" [("k", ⟨true, 100, "d/f", 5⟩)] false false)
      (fun _ => .absent) 42 "k" ⟨true, 100, "d/f", 5⟩ rfl).2 (Or.inr rfl)⟩

/-- C2: for a registered item with nonnegative validity, with the
force-refresh flag unset and the backing file present, `ResetExpire` at `now`
followed by `HasExpired` at `now` reports fresh, and `HasExpired` at
`now + validity + 1` reports expired. -/
theorem resetExpire_then_hasExpired (c : Cache) (fs : Fs) (now : Int)
    (k : String) (item : Item) (h : lookup c.content k = some item)
    (hval : 0 ≤ item.validity) (hforce : c.cacheRefresh = false)
    (hfile : fileExists fs item.file = true) :
    hasExpired (resetExpire c now k).2 fs now k = .ok false ∧
    hasExpired (resetExpire c now k).2 fs (now + item.validity + 1) k =
      .ok true := by
  have hres : (resetExpire c now k).2 =
      { c with
        content := insertKV c.content k { item with expiry := now + item.validity },
        writeExpiry := true } := by
    simp [resetExpire, getItem, h]
  have hlook :
      lookup (insertKV c.content k { item with expiry := now + item.validity }) k
        = some { item with expiry := now + item.validity } :=
    lookup_insertKV_self ..
  constructor
  · rw [hres, hasExpired_eq _ fs now k _ hlook]
    have hstill : ¬ (now > now + item.validity) := by omega
    simp [hforce, hfile, hstill]
  · rw [hres, hasExpired_eq _ fs (now + item.validity + 1) k _ hlook]
    have hpast : now + item.validity + 1 > now + item.validity := by omega
    simp [hforce, hfile, hpast]

theorem resetExpire_then_hasExpired_witness :
    lookup (Cache.mk false "d" [("k", ⟨true, 0, "d/f", 7⟩)] false false).content
      "k" = some ⟨true, 0, "d/f", 7⟩ ∧
    (0 : Int) ≤ (7 : Int) ∧
    hasExpired
      (resetExpire (Cache.mk false "d" [("k", ⟨true, 0, "d/f", 7⟩)] false false)
        100 "k").2
      (fun _ => .present "x") 100 "k" = .ok false :=
  ⟨rfl, by norm_num,
    (resetExpire_then_hasExpired
      (Cache.mk false "d" [("k", ⟨true, 0, "d/f", 7⟩)] false false)
      (fun _ => .present "x") 100 "k"
      ⟨true, 0, "d/f", 7⟩ rfl (by norm_num) rfl rfl).1⟩

/-- C4: `AddURL`/`AddFile` overwrite kind, file path and validity but keep an
existing expiry; only for an unknown key is the expiry set to `0`, and then
`HasExpired` reports expired for every positive `now`. -/
theorem register_expiry_semantics (c : Cache) (fs : Fs) (k fn : String)
    (v now : Int) (hpos : 0 < now) :
    (∀ old, lookup c.content k = some old →
      lookup (addURL c k fn v).content k =
        some ⟨true, old.expiry, pathJoin c.cacheDir fn, v⟩ ∧
      lookup (addFile c k fn v).content k =
        some ⟨false, old.expiry, pathJoin c.cacheDir fn, v⟩) ∧
    (lookup c.content k = none →
      lookup (addURL c k fn v).content k =
        some ⟨true, 0, pathJoin c.cacheDir fn, v⟩ ∧
      hasExpired (addURL c k fn v) fs now k = .ok true ∧
      lookup (addFile c k fn v).content k =
        some ⟨false, 0, pathJoin c.cacheDir fn, v⟩ ∧
      hasExpired (addFile c k fn v) fs now k = .ok true) := by
  constructor
  · intro old hold
    constructor
    · simp [addURL, hold, lookup_insertKV_self]
    · simp [addFile, hold, lookup_insertKV_self]
  · intro hnone
    have hu : lookup (addURL c k fn v).content k =
        some ⟨true, 0, pathJoin c.cacheDir fn, v⟩ := by
      simp [addURL, hnone, lookup_insertKV_self]
    have hf : lookup (addFile c k fn v).content k =
        some ⟨false, 0, pathJoin c.cacheDir fn, v⟩ := by
      simp [addFile, hnone, lookup_insertKV_self]
    have h0 : now > (0 : Int) := hpos
    refine ⟨hu, ?_, hf, ?_⟩
    · rw [hasExpired_eq _ fs now k _ hu]
      have hcr : (addURL c k fn v).cacheRefresh = c.cacheRefresh := by
        simp [addURL]
      rw [hcr]
      by_cases hr : c.cacheRefresh
      · simp [hr]
      · by_cases hx : fileExists fs (pathJoin c.cacheDir fn) <;>
          simp [hr, hx, h0]
    · rw [hasExpired_eq _ fs now k _ hf]
      have hcr : (addFile c k fn v).cacheRefresh = c.cacheRefresh := by
        simp [addFile]
      rw [hcr]
      by_cases hr : c.cacheRefresh
      · simp [hr]
      · by_cases hx : fileExists fs (pathJoin c.cacheDir fn) <;>
          simp [hr, hx, h0]

theorem register_expiry_semantics_witness :
    (0 : Int) < 5 ∧
    lookup (Cache.mk false "d" [] false false).content "old" = none ∧
    hasExpired (addURL (Cache.mk false "d" [] false false) "old" "f" 60)
      (fun _ => .present "x") 5 "old" = .ok true :=
  ⟨by norm_num, rfl,
    ((register_expiry_semantics (Cache.mk false "d" [] false false)
      (fun _ => .present "x") "old" "f" 60 5 (by norm_num)).2 rfl).2.1⟩

/-- C6 counterexample: `ResetExpire` does not return the new expiry value.
Its only return value besides the threaded state is the error status: two
caches whose items carry different validities (hence get different new
expiries) produce identical return values. -/
theorem resetExpire_returns_no_expiry :
    (resetExpire (Cache.mk false "" [("k", ⟨true, 0, "f", 5⟩)] false false)
      100 "k").1 =
      (resetExpire (Cache.mk false "" [("k", ⟨true, 0, "f", 9⟩)] false false)
        100 "k").1 ∧
    lookup (resetExpire (Cache.mk false "" [("k", ⟨true, 0, "f", 5⟩)] false false)
        100 "k").2.content "k" ≠
      lookup (resetExpire (Cache.mk false "" [("k", ⟨true, 0, "f", 9⟩)] false false)
        100 "k").2.content "k" := by
  constructor
  · rfl
  · decide

/-- C6 (amended): for every registered key, `ResetExpire` sets the item's
expiry to `now + validity`, marks the registry dirty, and returns a nil
error status — the new expiry value itself is not returned to the caller. -/
theorem resetExpire_effects (c : Cache) (now : Int) (k : String) (item : Item)
    (h : lookup c.content k = some item) :
    (resetExpire c now k).1 = none ∧
    lookup (resetExpire c now k).2.content k =
      some { item with expiry := now + item.validity } ∧
    (resetExpire c now k).2.writeExpiry = true := by
  simp [resetExpire, getItem, h, lookup_insertKV_self]

theorem resetExpire_effects_witness :
    lookup (Cache.mk false "" [("k", ⟨true, 3, "f", 5⟩)] false false).content
      "k" = some ⟨true, 3, "f", 5⟩ ∧
    lookup (resetExpire (Cache.mk false "" [("k", ⟨true, 3, "f", 5⟩)] false false)
        100 "k").2.content "k" = some ⟨true, 105, "f", 5⟩ :=
  ⟨rfl,
    (resetExpire_effects (Cache.mk false "" [("k", ⟨true, 3, "f", 5⟩)] false false)
      100 "k" ⟨true, 3, "f", 5⟩ rfl).2.1⟩

/-- C5 counterexample: a corrupt `expire.json` — readable bytes that are not
a JSON object with `urls`/`files` maps — is NOT fatal.  `gjson.ParseBytes`
has no error return, so `importExpiry` proceeds with an empty table, exactly
the outcome the claim says is prevented. -/
theorem importExpiry_corrupt_not_fatal :
    importExpiry (ExpiryFileState.corrupt "this is not json") 1700000000 [] =
      .proceed [] := rfl

/-- C5 (amended): `importExpiry` treats a missing expiry-table file as an
empty cache (not an error) and treats every other READ failure as fatal;
a file that reads successfully but fails to parse is silently imported as an
empty table (gjson parsing is total and reports no parse errors). -/
theorem importExpiry_error_handling (now : Int)
    (content : List (String × Item)) (msg raw : String) :
    importExpiry .absent now content = .proceed content ∧
    importExpiry (.unreadable msg) now content = .fatal msg ∧
    importExpiry (.corrupt raw) now content = .proceed content :=
  ⟨rfl, rfl, rfl⟩

/-- C7 counterexample: on fetcher failure, `getURLFromAPI` does not surface
the fetcher's error verbatim — it returns a fresh error wrapping it with
`unable to parse <key>: ...` (cacher.go:255). -/
theorem getURLFromAPI_error_not_verbatim :
    (getURLFromAPI (fun _ => .error "boom")
      (Cache.mk true "d" [("k", ⟨true, 0, "d/k", 5⟩)] false false)
      (fun _ => .absent) 100 "k").1 =
      .error (.errorf "unable to parse k" (.fetchErr "boom")) ∧
    GoErr.errorf "unable to parse k" (.fetchErr "boom") ≠
      GoErr.fetchErr "boom" :=
  ⟨rfl, by decide⟩

/-- C7 (amended): on fetcher failure `getURLFromAPI` propagates the error
wrapped as `unable to parse <key>: <err>` (not verbatim), and the cache state
and filesystem — the item's content file, stored expiry and dirty flag — are
returned exactly as they were. -/
theorem getURLFromAPI_fetch_error (fetcher : Fetcher) (c : Cache) (fs : Fs)
    (now : Int) (k : String) (msg : String)
    (hapi : c.apiInit = true) (hf : fetcher k = .error msg) :
    getURLFromAPI fetcher c fs now k =
      (.error (.errorf ("unable to parse " ++ k) (.fetchErr msg)), c, fs) := by
  simp [getURLFromAPI, hapi, hf]

theorem getURLFromAPI_fetch_error_witness :
    (Cache.mk true "d" [("k", ⟨true, 0, "d/k", 5⟩)] false false).apiInit =
      true ∧
    ((fun _ => Except.error "boom" : Fetcher) "k" = .error "boom") ∧
    getURLFromAPI (fun _ => .error "boom")
      (Cache.mk true "d" [("k", ⟨true, 0, "d/k", 5⟩)] false false)
      (fun _ => .absent) 100 "k" =
      (.error (.errorf "unable to parse k" (.fetchErr "boom")),
        Cache.mk true "d" [("k", ⟨true, 0, "d/k", 5⟩)] false false,
        (fun _ => .absent)) :=
  ⟨rfl, rfl,
    getURLFromAPI_fetch_error (fun _ => .error "boom")
      (Cache.mk true "d" [("k", ⟨true, 0, "d/k", 5⟩)] false false)
      (fun _ => .absent) 100 "k" "boom" rfl rfl⟩

/-- C8: for a Remote item that is expired (or whose cached file is
unreadable), with no fetcher configured, `GetURL` returns the distinct
`errAPIInit` error — a different value from every I/O or fetcher error —
without attempting the fetch (the result is the same for every fetcher), and
leaves the state untouched. -/
theorem getURL_fetcher_uninitialized (f g : Fetcher) (c : Cache) (fs : Fs)
    (now : Int) (k : String) (item : Item) (m : String)
    (h : lookup c.content k = some item) (hurl : item.url = true)
    (hapi : c.apiInit = false)
    (hcase : hasExpired c fs now k = .ok true ∨ fs item.file = .unreadable m) :
    getURL f c fs now k = (.error .errAPIInit, c, fs) ∧
    getURL f c fs now k = getURL g c fs now k ∧
    (∀ s, GoErr.errAPIInit ≠ .ioError s) ∧
    (∀ s, GoErr.errAPIInit ≠ .fetchErr s) := by
  have hapiRes : ∀ f' : Fetcher,
      getURLFromAPI f' c fs now k = (.error .errAPIInit, c, fs) := by
    intro f'
    simp [getURLFromAPI, hapi]
  have key : ∀ f' : Fetcher, getURL f' c fs now k = (.error .errAPIInit, c, fs) := by
    intro f'
    rcases hcase with hexp | hunread
    · simp [getURL, getItem, h, hurl, hexp, hapiRes f']
    · simp [getURL, getItem, h, hurl, hasExpired_eq c fs now k item h,
        readFile, hunread, hapiRes f']
  exact ⟨key f, (key f).trans (key g).symm, fun s => by simp, fun s => by simp⟩

theorem getURL_fetcher_uninitialized_witness :
    lookup (Cache.mk false "d" [("k", ⟨true, 100, "d/k", 5⟩)] false false).content
      "k" = some ⟨true, 100, "d/k", 5⟩ ∧
    (⟨true, 100, "d/k", 5⟩ : Item).url = true ∧
    (Cache.mk false "d" [("k", ⟨true, 100, "d/k", 5⟩)] false false).apiInit =
      false ∧
    hasExpired (Cache.mk false "d" [("k", ⟨true, 100, "d/k", 5⟩)] false false)
      (fun _ => .absent) 42 "k" = .ok true ∧
    getURL (fun _ => .ok "payload")
      (Cache.mk false "d" [("k", ⟨true, 100, "d/k", 5⟩)] false false)
      (fun _ => .absent) 42 "k" =
      (.error .errAPIInit,
        Cache.mk false "d" [("k", ⟨true, 100, "d/k", 5⟩)] false false,
        (fun _ => .absent)) :=
  ⟨rfl, rfl, rfl, rfl,
    (getURL_fetcher_uninitialized (fun _ => .ok "payload") (fun _ => .ok "q")
      (Cache.mk false "d" [("k", ⟨true, 100, "d/k", 5⟩)] false false)
      (fun _ => .absent) 42 "k" ⟨true, 100, "d/k", 5⟩ "unused"
      rfl rfl rfl (Or.inl rfl)).1⟩

/-- C9: for a Remote item that `HasExpired` reports fresh, if reading its
file fails, `GetURL` falls through to the refresh path — its result is
exactly `getURLFromAPI`'s — instead of propagating the read error. -/
theorem getURL_read_failure_falls_through (f : Fetcher) (c : Cache) (fs : Fs)
    (now : Int) (k : String) (item : Item) (m : String)
    (h : lookup c.content k = some item) (hurl : item.url = true)
    (hfresh : hasExpired c fs now k = .ok false)
    (hread : fs item.file = .unreadable m) :
    getURL f c fs now k = getURLFromAPI f c fs now k := by
  simp [getURL, getItem, h, hurl, hfresh, readFile, hread]

theorem getURL_read_failure_falls_through_witness :
    lookup (Cache.mk true "d" [("k", ⟨true, 100, "d/k", 5⟩)] false false).content
      "k" = some ⟨true, 100, "d/k", 5⟩ ∧
    (⟨true, 100, "d/k", 5⟩ : Item).url = true ∧
    hasExpired (Cache.mk true "d" [("k", ⟨true, 100, "d/k", 5⟩)] false false)
      (fun _ => .unreadable "eacces") 42 "k" = .ok false ∧
    (fun _ => FileState.unreadable "eacces" : Fs) "d/k" = .unreadable "eacces" ∧
    getURL (fun _ => .ok "payload")
      (Cache.mk true "d" [("k", ⟨true, 100, "d/k", 5⟩)] false false)
      (fun _ => .unreadable "eacces") 42 "k" =
      getURLFromAPI (fun _ => .ok "payload")
        (Cache.mk true "d" [("k", ⟨true, 100, "d/k", 5⟩)] false false)
        (fun _ => .unreadable "eacces") 42 "k" :=
  ⟨rfl, rfl, rfl, rfl,
    getURL_read_failure_falls_through (fun _ => .ok "payload")
      (Cache.mk true "d" [("k", ⟨true, 100, "d/k", 5⟩)] false false)
      (fun _ => .unreadable "eacces") 42 "k" ⟨true, 100, "d/k", 5⟩ "eacces"
      rfl rfl rfl rfl⟩

/-- C3: exporting the expiry table with `WriteExpiryFile` (dirty flag set)
and importing the written file at a restart reproduces the same expiry value
for every key whose recorded expiry is strictly younger than the 7-day
retention horizon, and drops every entry at or beyond that horizon. -/
theorem exportImport_roundtrip (c : Cache) (efs : ExpiryFileState)
    (now : Int) (k : String) (i : Item)
    (hdirty : c.writeExpiry = true)
    (hnd : (keys c.content).Nodup)
    (h : lookup c.content k = some i) :
    importExpiry (writeExpiryFile c efs).1 now [] =
      .proceed (importTable (exportTable c.content) now []) ∧
    lookup (importTable (exportTable c.content) now []) k =
      (if i.expiry > now - 7 * 24 * 60 * 60 then
        some ⟨i.url, i.expiry, "", 0⟩
      else none) := by
  constructor
  · simp [writeExpiryFile, hdirty, importExpiry]
  · have hmemC : (k, i) ∈ c.content := mem_of_lookup_eq_some _ _ _ h
    simp only [importTable]
    by_cases hu : i.url = true
    · have hmem := mem_exportTable_urls _ _ _ hmemC hu
      have hndu := keys_exportTable_urls_nodup _ hnd
      have hnf := not_mem_exportTable_files _ _ _ h hu hnd
      rw [lookup_foldl_importStep_not_mem _ _ _ _ _ hnf,
        lookup_foldl_importStep_mem _ _ _ _ _ _ hmem hndu]
      simp [lookup, ageLimitOf, hu]
    · have hu' : i.url = false := by simpa using hu
      have hmem := mem_exportTable_files _ _ _ hmemC hu'
      have hndf := keys_exportTable_files_nodup _ hnd
      have hnu := not_mem_exportTable_urls _ _ _ h hu' hnd
      rw [lookup_foldl_importStep_mem _ _ _ _ _ _ hmem hndf,
        lookup_foldl_importStep_not_mem _ _ _ _ _ hnu]
      simp [lookup, ageLimitOf, hu']

theorem exportImport_roundtrip_witness :
    (Cache.mk false "d" [("k", ⟨true, 1000, "d/k", 5⟩)] false true).writeExpiry
      = true ∧
    (keys (Cache.mk false "d" [("k", ⟨true, 1000, "d/k", 5⟩)] false
      true).content).Nodup ∧
    lookup (Cache.mk false "d" [("k", ⟨true, 1000, "d/k", 5⟩)] false
      true).content "k" = some ⟨true, 1000, "d/k", 5⟩ ∧
    lookup (importTable (exportTable
        (Cache.mk false "d" [("k", ⟨true, 1000, "d/k", 5⟩)] false
          true).content) 2000 []) "k" =
      (if (1000 : Int) > 2000 - 7 * 24 * 60 * 60 then
        some ⟨true, 1000, "", 0⟩
      else none) :=
  ⟨rfl, by decide, rfl,
    (exportImport_roundtrip
      (Cache.mk false "d" [("k", ⟨true, 1000, "d/k", 5⟩)] false true)
      .absent 2000 "k" ⟨true, 1000, "d/k", 5⟩ rfl (by decide) rfl).2⟩

/-- C10: a key imported from the persisted table within the retention
horizon, never registered in the current run, is found by `HasExpired` (no
`errNoItem`); the imported item has an empty file path and zero validity, so
it is reported expired at every time (the empty path exists on no
filesystem). -/
theorem imported_unregistered_expired (t : ExpiryTable) (nowImp now : Int)
    (k : String) (e : Int) (fs : Fs) (c : Cache)
    (hc : c.content = importTable t nowImp [])
    (hcase : ((k, e) ∈ t.urls ∧ (keys t.urls).Nodup ∧ k ∉ keys t.files) ∨
             ((k, e) ∈ t.files ∧ (keys t.files).Nodup ∧ k ∉ keys t.urls))
    (hyoung : e > ageLimitOf nowImp)
    (hfs : fs "" = .absent) :
    ∃ u : Bool, lookup c.content k = some ⟨u, e, "", 0⟩ ∧
      hasExpired c fs now k = .ok true := by
  have hlook : ∃ u : Bool, lookup c.content k = some ⟨u, e, "", 0⟩ := by
    rcases hcase with ⟨hmem, hnd, hnf⟩ | ⟨hmem, hnd, hnu⟩
    · refine ⟨true, ?_⟩
      rw [hc]
      simp only [importTable]
      rw [lookup_foldl_importStep_not_mem _ _ _ _ _ hnf,
        lookup_foldl_importStep_mem _ _ _ _ _ _ hmem hnd]
      simp [lookup, hyoung]
    · refine ⟨false, ?_⟩
      rw [hc]
      simp only [importTable]
      rw [lookup_foldl_importStep_mem _ _ _ _ _ _ hmem hnd,
        lookup_foldl_importStep_not_mem _ _ _ _ _ hnu]
      simp [lookup, hyoung]
  obtain ⟨u, hu⟩ := hlook
  refine ⟨u, hu, ?_⟩
  rw [hasExpired_eq c fs now k _ hu]
  have hfe : fileExists fs ("" : String) = false := by simp [fileExists, hfs]
  by_cases hr : c.cacheRefresh <;> simp [hr, hfe]

theorem imported_unregistered_expired_witness :
    (Cache.mk false "" (importTable ⟨[("k", 1000)], []⟩ 2000 []) false
      false).content = importTable ⟨[("k", 1000)], []⟩ 2000 [] ∧
    (1000 : Int) > ageLimitOf 2000 ∧
    (∃ u : Bool,
      lookup (Cache.mk false "" (importTable ⟨[("k", 1000)], []⟩ 2000 [])
        false false).content "k" = some ⟨u, 1000, "", 0⟩ ∧
      hasExpired (Cache.mk false "" (importTable ⟨[("k", 1000)], []⟩ 2000 [])
        false false) (fun _ => .absent) 99 "k" = .ok true) :=
  ⟨rfl, by decide,
    imported_unregistered_expired ⟨[("k", 1000)], []⟩ 2000 99 "k" 1000
      (fun _ => .absent)
      (Cache.mk false "" (importTable ⟨[("k", 1000)], []⟩ 2000 []) false false)
      rfl (Or.inl ⟨by decide, by decide, by decide⟩) (by decide) rfl⟩

end Satinv
